import Mathlib

/-!
Verification of the grafserv Accept-header content-negotiation core
(`grafast/grafserv/src/accept.ts`): the byte-level Accept parser, the
precedence sorter, the server-type digester, the matcher, and the
spec-described LRU cache in front of it.

Strings are handled at the level of UTF-16 code units as in the source
(`charCodeAt`); headers are ASCII so `Char.toNat` coincides.
-/

namespace Grafserv

/-! ### Character constants and classes (accept.ts lines 90-155) -/

def SPACE : Nat := 32
def HORIZONTAL_TAB : Nat := 9
def ASTERISK : Nat := 42
def SLASH : Nat := 47
def COMMA : Nat := 44
def SEMICOLON : Nat := 59
def EQUALS : Nat := 61
def DOUBLE_QUOTE : Nat := 34
def BACKSLASH : Nat := 92

def WHITESPACE_START : Nat := 9
def WHITESPACE_END : Nat := 13

/-- Lenient whitespace: space or 0x09-0x0D. -/
def isWhitespace (charCode : Nat) : Bool :=
  charCode == SPACE ||
    (charCode ≥ WHITESPACE_START && charCode ≤ WHITESPACE_END)

/-- Optional whitespace: space or horizontal tab. -/
def isOWS (charCode : Nat) : Bool :=
  charCode == SPACE || charCode == HORIZONTAL_TAB

/-- Token character class as implemented in accept.ts. -/
def isToken (charCode : Nat) : Bool :=
  (charCode ≥ 94 && charCode ≤ 122) ||
  (charCode ≥ 35 && charCode ≤ 57 &&
    charCode != 40 && charCode != 41 && charCode != 44) ||
  (charCode ≥ 65 && charCode ≤ 90) ||
  charCode == 33 ||
  charCode == 124 ||
  charCode == 126

/-! ### Parameter objects

JavaScript objects created with `Object.create(null)`, used as ordered
string-keyed maps. A stored value of `none` models a stored `undefined`
(possible for server digests when a parameter has no `=`). Keys are unique
and kept in insertion order. -/

/-- Ordered parameter map. -/
abbrev Params := List (String × Option String)

/-- JavaScript property read `obj[key]`: `none` models `undefined`
(key absent, or present with stored `undefined`). -/
def jsGet (ps : Params) (k : String) : Option String :=
  (List.lookup k ps).join

/-- JavaScript property write `obj[key] = v`: overwrite in place keeping
the key's original position, otherwise append. -/
def setParam : Params → String → Option String → Params
  | [], k, v => [(k, v)]
  | (k', v') :: rest, k, v =>
    if k' == k then (k', v) :: rest else (k', v') :: setParam rest k v

/-- JavaScript `delete obj[key]`. -/
def delParam (ps : Params) (k : String) : Params :=
  ps.filter (fun p => p.1 != k)

/-- JavaScript string coercion applied to the left operand of
`obj[key] += s` (an undefined slot concatenates as `"undefined"`). -/
def jsStr : Option String → String
  | some s => s
  | none => "undefined"

/-- JavaScript `obj[key] += s`. -/
def appendParam (ps : Params) (k : String) (s : String) : Params :=
  setParam ps k (some (jsStr (jsGet ps k) ++ s))

/-! ### JavaScript `parseFloat`

Model of `parseFloat` restricted to finite decimal notation (optional
sign, integer digits, fraction, exponent); `none` models `NaN`. Values
are exact rationals rather than IEEE doubles. Non-finite inputs such as
`"Infinity"` are mapped to `none`; both `NaN` and out-of-range values
make the caller (`acceptNext`) fail with the same error, so this
coarsening is observation-preserving for the q-value check. -/

def isDigitChar (c : Char) : Bool := 48 ≤ c.toNat && c.toNat ≤ 57

def digitsVal (cs : List Char) : Nat :=
  cs.foldl (fun n c => 10 * n + (c.toNat - 48)) 0

/-- Exponent suffix (`e`/`E`, optional sign, digits); 0 when absent or
malformed, matching `parseFloat`'s stop-at-first-invalid-character rule. -/
def parseExponent (cs : List Char) : Int :=
  match cs with
  | [] => 0
  | c :: rest =>
    if c.toNat == 101 || c.toNat == 69 then
      match rest with
      | [] => 0
      | c2 :: rest2 =>
        if c2.toNat == 45 then
          (if (rest2.takeWhile isDigitChar).isEmpty then 0
           else -(digitsVal (rest2.takeWhile isDigitChar) : Int))
        else if c2.toNat == 43 then
          (if (rest2.takeWhile isDigitChar).isEmpty then 0
           else (digitsVal (rest2.takeWhile isDigitChar) : Int))
        else
          (if (rest.takeWhile isDigitChar).isEmpty then 0
           else (digitsVal (rest.takeWhile isDigitChar) : Int))
    else 0

/-- Unsigned decimal significand with optional fraction and exponent. -/
def parseDecimal (cs : List Char) : Option ℚ :=
  let intPart := cs.takeWhile isDigitChar
  let rest1 := cs.dropWhile isDigitChar
  let fracPart :=
    match rest1 with
    | [] => ([] : List Char)
    | c :: r => if c.toNat == 46 then r.takeWhile isDigitChar else []
  let rest2 :=
    match rest1 with
    | [] => rest1
    | c :: r => if c.toNat == 46 then r.dropWhile isDigitChar else rest1
  if intPart.isEmpty && fracPart.isEmpty then none
  else
    some (((digitsVal intPart : ℚ) +
            (digitsVal fracPart : ℚ) / ((10 : ℚ) ^ fracPart.length)) *
          (10 : ℚ) ^ parseExponent rest2)

/-- Model of JavaScript `parseFloat` (see section comment above). -/
def jsParseFloat (s : String) : Option ℚ :=
  let cs := s.toList.dropWhile (fun c => isWhitespace c.toNat)
  match cs with
  | [] => none
  | c :: rest =>
    if c.toNat == 45 then (parseDecimal rest).map (fun q => -q)
    else if c.toNat == 43 then parseDecimal rest
    else parseDecimal (c :: rest)

/-! ### Data model -/

/-- A parsed media range (`interface Accept`). `q` is modelled as an exact
rational. -/
structure Accept where
  type : String
  subtype : String
  parameters : Params
  q : ℚ
deriving DecidableEq, Repr

/-- `type TypeDigest = Accept & { originalType: string }`, with the runtime
shape produced by `makeAcceptMatcher`: `subtype` is `undefined` (`none`)
when the registered string has no `/`. -/
structure TypeDigest where
  type : String
  subtype : Option String
  parameters : Params
  q : ℚ
  originalType : String
deriving DecidableEq, Repr

/-- Parser states (`enum State`). -/
inductive State where
  | EXPECT_TYPE
  | CONTINUE_TYPE
  | EXPECT_SUBTYPE
  | CONTINUE_SUBTYPE
  | EXPECT_COMMA_OR_SEMICOLON
  | EXPECT_PARAMETER_NAME
  | CONTINUE_PARAMETER_NAME
  | EXPECT_PARAMETER_VALUE
  | CONTINUE_PARAMETER_VALUE
  | CONTINUE_QUOTED_PARAMETER_VALUE
deriving DecidableEq, Repr

/-! ### The Accept parser (`parseAccepts`) -/

/-- The q-extraction of the `next()` closure, applied to `currentAccept`
just before pushing it: `if (parameters.q)` (truthiness: defined and not
`""`), then `parseFloat`, the NaN/range check, `delete parameters.q`, and
the assignment to `q`. -/
def acceptNext (cur : Accept) : Except String Accept :=
  match jsGet cur.parameters "q" with
  | some qs =>
    if qs != "" then
      match jsParseFloat qs with
      | none => Except.error "q out of range"
      | some q =>
        if q < 0 ∨ q > 1 then Except.error "q out of range"
        else Except.ok { cur with parameters := delParam cur.parameters "q", q := q }
    else Except.ok cur
  | none => Except.ok cur

/-- The `currentAccept!` non-null assertion: reading a `null` current
accept would crash, modelled as an error. -/
def jsNonNull (cur : Option Accept) : Except String Accept :=
  match cur with
  | some a => Except.ok a
  | none => Except.error "null accept"

/-- `next()` applied to `currentAccept!`: the q-extraction followed by the
push (performed by the caller). -/
def commitCur (cur : Option Accept) : Except String Accept :=
  match cur with
  | some a => acceptNext a
  | none => Except.error "null accept"

/-- The character loop of `parseAccepts`, one equation per loop iteration;
the `*`-lookahead and the `\`-escape consume extra characters exactly where
the source advances `i` manually. In the `*` branch, when the source sets
`state = EXPECT_SUBTYPE` and loops, the next iteration (an `EXPECT_SUBTYPE`
step on the character after `*/`, or the final commit when the input ends
there) is unrolled in place, keeping the recursion structural. `cur` is
`currentAccept` (`none` models `null`, and each `currentAccept!` read goes
through `jsNonNull`/`commitCur`), `pname` is `currentParameterName`, `acc`
is the `accepts` array. The end-of-input equation performs the final
`if (state !== EXPECT_TYPE) next()`. -/
def parseAcceptsRun :
    List Char → State → Option Accept → String → List Accept →
    Except String (List Accept)
  | [], state, cur, _, acc =>
    if state = State.EXPECT_TYPE then Except.ok acc
    else
      match commitCur cur with
      | Except.error e => Except.error e
      | Except.ok a' => Except.ok (acc ++ [a'])
  | c :: rest, State.EXPECT_TYPE, cur, pname, acc =>
    if isWhitespace c.toNat then
      parseAcceptsRun rest State.EXPECT_TYPE cur pname acc
    else if c.toNat == ASTERISK then
      match rest with
      | [] => Except.error "Expected '/' after '*'"
      | c2 :: rest2 =>
        if c2.toNat != SLASH then Except.error "Expected '/' after '*'"
        else
          match rest2 with
          | c3 :: rest3 =>
            if c3.toNat == ASTERISK then
              parseAcceptsRun rest3 State.EXPECT_COMMA_OR_SEMICOLON
                (some { type := "*", subtype := "*", parameters := [], q := 1 }) pname acc
            else if isToken c3.toNat then
              parseAcceptsRun rest3 State.CONTINUE_SUBTYPE
                (some { type := "*", subtype := String.singleton c3, parameters := [], q := 1 })
                pname acc
            else Except.error "Unexpected character"
          | [] =>
            Except.ok (acc ++ [{ type := "*", subtype := "", parameters := [], q := 1 }])
    else if isToken c.toNat then
      parseAcceptsRun rest State.CONTINUE_TYPE
        (some { type := String.singleton c, subtype := "", parameters := [], q := 1 }) pname acc
    else Except.error "Unexpected character"
  | c :: rest, State.CONTINUE_TYPE, cur, pname, acc =>
    if c.toNat == SLASH then
      parseAcceptsRun rest State.EXPECT_SUBTYPE cur pname acc
    else if isToken c.toNat then
      match jsNonNull cur with
      | Except.error e => Except.error e
      | Except.ok a =>
        parseAcceptsRun rest State.CONTINUE_TYPE
          (some { a with type := a.type.push c }) pname acc
    else Except.error "Unexpected character"
  | c :: rest, State.EXPECT_SUBTYPE, cur, pname, acc =>
    if isToken c.toNat then
      match jsNonNull cur with
      | Except.error e => Except.error e
      | Except.ok a =>
        parseAcceptsRun rest State.CONTINUE_SUBTYPE
          (some { a with subtype := String.singleton c }) pname acc
    else Except.error "Unexpected character"
  | c :: rest, State.CONTINUE_SUBTYPE, cur, pname, acc =>
    if c.toNat == SEMICOLON then
      parseAcceptsRun rest State.EXPECT_PARAMETER_NAME cur pname acc
    else if c.toNat == COMMA then
      match commitCur cur with
      | Except.error e => Except.error e
      | Except.ok a' => parseAcceptsRun rest State.EXPECT_TYPE none pname (acc ++ [a'])
    else if isToken c.toNat then
      match jsNonNull cur with
      | Except.error e => Except.error e
      | Except.ok a =>
        parseAcceptsRun rest State.CONTINUE_SUBTYPE
          (some { a with type := a.type.push c }) pname acc
    else Except.error "Unexpected character"
  | c :: rest, State.EXPECT_COMMA_OR_SEMICOLON, cur, pname, acc =>
    if isWhitespace c.toNat then
      parseAcceptsRun rest State.EXPECT_COMMA_OR_SEMICOLON cur pname acc
    else if c.toNat == SEMICOLON then
      parseAcceptsRun rest State.EXPECT_PARAMETER_NAME cur pname acc
    else if c.toNat == COMMA then
      match commitCur cur with
      | Except.error e => Except.error e
      | Except.ok a' => parseAcceptsRun rest State.EXPECT_TYPE none pname (acc ++ [a'])
    else Except.error "Unexpected character"
  | c :: rest, State.EXPECT_PARAMETER_NAME, cur, pname, acc =>
    if isOWS c.toNat then
      parseAcceptsRun rest State.EXPECT_PARAMETER_NAME cur pname acc
    else if isToken c.toNat then
      parseAcceptsRun rest State.CONTINUE_PARAMETER_NAME cur (String.singleton c) acc
    else Except.error "Unexpected character"
  | c :: rest, State.CONTINUE_PARAMETER_NAME, cur, pname, acc =>
    if isToken c.toNat then
      parseAcceptsRun rest State.CONTINUE_PARAMETER_NAME cur (pname.push c) acc
    else if c.toNat == EQUALS then
      match jsNonNull cur with
      | Except.error e => Except.error e
      | Except.ok a =>
        parseAcceptsRun rest State.EXPECT_PARAMETER_VALUE
          (some { a with parameters := setParam a.parameters pname (some "") }) pname acc
    else Except.error "Unexpected character"
  | c :: rest, State.EXPECT_PARAMETER_VALUE, cur, pname, acc =>
    if c.toNat == DOUBLE_QUOTE then
      parseAcceptsRun rest State.CONTINUE_QUOTED_PARAMETER_VALUE cur pname acc
    else if isToken c.toNat then
      parseAcceptsRun rest State.CONTINUE_PARAMETER_VALUE cur (pname.push c) acc
    else if c.toNat == EQUALS then
      parseAcceptsRun rest State.EXPECT_PARAMETER_VALUE cur pname acc
    else Except.error "Unexpected character"
  | c :: rest, State.CONTINUE_PARAMETER_VALUE, cur, pname, acc =>
    if c.toNat == SEMICOLON then
      parseAcceptsRun rest State.EXPECT_PARAMETER_NAME cur pname acc
    else if c.toNat == COMMA then
      match commitCur cur with
      | Except.error e => Except.error e
      | Except.ok a' => parseAcceptsRun rest State.EXPECT_TYPE none pname (acc ++ [a'])
    else if isToken c.toNat then
      match jsNonNull cur with
      | Except.error e => Except.error e
      | Except.ok a =>
        parseAcceptsRun rest State.CONTINUE_PARAMETER_VALUE
          (some { a with parameters := appendParam a.parameters pname (String.singleton c) })
          pname acc
    else Except.error "Unexpected character"
  | c :: rest, State.CONTINUE_QUOTED_PARAMETER_VALUE, cur, pname, acc =>
    if c.toNat == DOUBLE_QUOTE then
      parseAcceptsRun rest State.EXPECT_COMMA_OR_SEMICOLON cur pname acc
    else if c.toNat == BACKSLASH then
      match rest with
      | [] => Except.error "Unexpected terminating backslash"
      | c2 :: rest2 =>
        match jsNonNull cur with
        | Except.error e => Except.error e
        | Except.ok a =>
          parseAcceptsRun rest2 State.CONTINUE_QUOTED_PARAMETER_VALUE
            (some { a with parameters := appendParam a.parameters pname (String.singleton c2) })
            pname acc
    else
      match jsNonNull cur with
      | Except.error e => Except.error e
      | Except.ok a =>
        parseAcceptsRun rest State.CONTINUE_QUOTED_PARAMETER_VALUE
          (some { a with parameters := appendParam a.parameters pname (String.singleton c) })
          pname acc

/-- Precedence score from the tail of `parseAccepts`; the parameter list
has unique keys, so its length is `Object.keys(parameters).length`. -/
def score (accept : Accept) : Nat :=
  (if accept.type != "*" then 1000 else 0) +
    (if accept.subtype != "*" then 1000000 else 0) +
    accept.parameters.length

/-- Stable descending insertion by score: the inserted range goes after
every already-placed range of greater or equal score. -/
def insertByScore (a : Accept) : List Accept → List Accept
  | [] => [a]
  | b :: rest =>
    if score b ≤ score a then a :: b :: rest else b :: insertByScore a rest

/-- Model of the stable `accepts.sort((a, z) => score(z) - score(a))`:
JavaScript `Array.prototype.sort` is stable, and for a consistent
comparator the stable descending order is unique, so stable insertion
sort computes the same list. -/
def sortAccepts (accepts : List Accept) : List Accept :=
  accepts.foldr insertByScore []

/-- `parseAccepts(acceptHeader)`: run the state machine, then sort the
committed ranges by descending score. Errors thrown by the source are
`Except.error`. -/
def parseAccepts (acceptHeader : String) : Except String (List Accept) :=
  match parseAcceptsRun acceptHeader.toList State.EXPECT_TYPE none "" [] with
  | Except.error e => Except.error e
  | Except.ok accepts => Except.ok (sortAccepts accepts)

/-! ### Server-type digester and matcher (`makeAcceptMatcher`) -/

/-- JavaScript `String.prototype.split` with a single-character separator
(the digester only splits on `";"`, `"="` and `"/"`): splits at every
occurrence, always yielding at least one (possibly empty) part. -/
def jsSplitChar (sep : Nat) : List Char → List String
  | [] => [""]
  | c :: rest =>
    match jsSplitChar sep rest with
    | [] => [""]
    | s :: ss =>
      if c.toNat == sep then "" :: s :: ss else (String.singleton c ++ s) :: ss

/-- `s.split(sep)` for a one-character separator, given as a char code. -/
def jsSplit (s : String) (sep : Nat) : List String :=
  jsSplitChar sep s.toList

/-- One digest from `makeAcceptMatcher`: split the registered string on
`;`, each parameter on `=` (the value is `undefined` when there is no
`=`), and the spec part on `/` (the subtype is `undefined` when there is
no `/`; destructuring takes the first two parts). The original string is
kept verbatim. -/
def digestOf (t : String) : TypeDigest :=
  let parts := jsSplit t SEMICOLON
  let spec := parts.headD ""
  let parameters := parts.tail.foldl
    (fun ps param =>
      let kv := jsSplit param EQUALS
      setParam ps (kv.headD "") kv[1]?) []
  let specParts := jsSplit spec SLASH
  { type := specParts.headD ""
    subtype := specParts[1]?
    parameters := parameters
    q := 1
    originalType := t }

/-- The `mediaTypes.map(...)` digestion performed once at matcher construction. -/
def makeTypeDigests (mediaTypes : List String) : List TypeDigest :=
  mediaTypes.map digestOf

/-- `matchesParameters(required, given)`: every key of `required` must have
an identical value in `given`. -/
def matchesParameters (required : Params) (given : Params) : Bool :=
  required.all (fun kv => jsGet given kv.1 == jsGet required kv.1)

/-- The predicate of `specs.find(...)` in `preferredAccept`; comparing the
client subtype with a possibly-`undefined` digest subtype is JavaScript
strict equality. -/
def specMatches (digest : TypeDigest) (spec : Accept) : Bool :=
  spec.type == "*" ||
    (spec.type == digest.type &&
      (spec.subtype == "*" ||
        (some spec.subtype == digest.subtype &&
          matchesParameters spec.parameters digest.parameters)))

/-- `specs.find(...)`: the first (highest-precedence) client range matching
the digest. -/
def findSpec (digest : TypeDigest) (specs : List Accept) : Option Accept :=
  specs.find? (specMatches digest)

/-- JavaScript truthiness of `bestMediaType : string | null`: falsy exactly
when `null` or the empty string. -/
def jsFalsy : Option String → Bool
  | none => true
  | some s => s == ""

/-- The digest loop of `preferredAccept`: for each digest in registration
order, take its first matching spec; replace the running best when
`!bestMediaType || match.q > bestQ`. -/
def selectLoop : List TypeDigest → List Accept → ℚ → Option String → Option String
  | [], _, _, bestMediaType => bestMediaType
  | digest :: rest, specs, bestQ, bestMediaType =>
    match findSpec digest specs with
    | some m =>
      if jsFalsy bestMediaType ∨ m.q > bestQ then
        selectLoop rest specs m.q (some digest.originalType)
      else selectLoop rest specs bestQ bestMediaType
    | none => selectLoop rest specs bestQ bestMediaType

/-- The cache-miss computation of `preferredAccept` (`bestQ = 0`,
`bestMediaType = null` initially). -/
def selectBest (typeDigests : List TypeDigest) (specs : List Accept) : Option String :=
  selectLoop typeDigests specs 0 none

/-! ### LRU cache and the matcher closure -/

/-- Modelled from the spec: the `@graphile/lru` package used by
`makeAcceptMatcher` is not part of this repository's sources. Per the
specification's cache section it is a bounded mapping from header string
to `string | null` (`maxLength = 50`), evicting the least-recently-used
entry on insertion overflow, with lookups updating recency. Entries are
kept most-recent first. -/
structure LRUModel where
  maxLength : Nat
  entries : List (String × Option String)
deriving DecidableEq, Repr

/-- Modelled from the spec: cache lookup. On a hit the entry moves to the
front (recency update); on a miss the cache is unchanged. -/
def lruGet (lru : LRUModel) (k : String) : Option (Option String) × LRUModel :=
  match List.lookup k lru.entries with
  | some v =>
    (some v, { lru with entries := (k, v) :: lru.entries.filter (fun e => e.1 != k) })
  | none => (none, lru)

/-- Modelled from the spec: cache insertion at the front, truncated to the
bound (least-recently-used entries evicted). -/
def lruSet (lru : LRUModel) (k : String) (v : Option String) : LRUModel :=
  { lru with
    entries := ((k, v) :: lru.entries.filter (fun e => e.1 != k)).take lru.maxLength }

/-- The cache a fresh matcher starts with (`new LRU({ maxLength: 50 })`). -/
def initialLRU : LRUModel := { maxLength := 50, entries := [] }

/-- The closure returned by `makeAcceptMatcher`, as a state-passing function
over its cache: an absent (`undefined`) header returns `mediaTypes[0]`
without touching the cache; otherwise the cache is consulted, and on a miss
the header is parsed (errors propagate, leaving the returned cache in the
post-lookup state) and the computed answer is inserted. A `none` result
models `null`. -/
def preferredAccept (typeDigests : List TypeDigest) (mediaTypes : List String)
    (lru : LRUModel) (acceptHeader : Option String) :
    Except String (Option String) × LRUModel :=
  match acceptHeader with
  | none => (Except.ok mediaTypes.head?, lru)
  | some h =>
    match lruGet lru h with
    | (some existing, lru') => (Except.ok existing, lru')
    | (none, lru') =>
      match parseAccepts h with
      | Except.error e => (Except.error e, lru')
      | Except.ok specs =>
        let bestMediaType := selectBest typeDigests specs
        (Except.ok bestMediaType, lruSet lru' h bestMediaType)

/-! ### Derived definitions used by the verification -/

/-- Type component of a registered media-type string: the part before the
first `/` of the part before the first `;` — exactly what `digestOf`
stores in `type`. -/
def typeComponentOf (t : String) : String :=
  (jsSplit ((jsSplit t SEMICOLON).headD "") SLASH).headD ""

/-- Number of non-wildcard components of a range. -/
def nonWildcardComponents (a : Accept) : Nat :=
  (if a.type != "*" then 1 else 0) + (if a.subtype != "*" then 1 else 0)

/-- The spec's "strictly more specific" relation on ranges: more non-`*`
components, or equal components with a strict superset of parameters. -/
def moreSpecific (a b : Accept) : Prop :=
  nonWildcardComponents b < nonWildcardComponents a ∨
    (a.type = b.type ∧ a.subtype = b.subtype ∧
      b.parameters ⊆ a.parameters ∧ b.parameters.length < a.parameters.length)

/-- Reference selection following the spec's matcher description: among the
digests whose `findSpec` matches, the earliest-registered digest with the
maximum q of its first matching range (a later digest displaces an earlier
one only with strictly greater q); `none` when no digest matches. -/
def bestOf : List TypeDigest → List Accept → Option (ℚ × String)
  | [], _ => none
  | d :: rest, specs =>
    match findSpec d specs with
    | none => bestOf rest specs
    | some m =>
      match bestOf rest specs with
      | none => some (m.q, d.originalType)
      | some (q', t') =>
        if m.q < q' then some (q', t') else some (m.q, d.originalType)

/-- Grammar-compliant suffixes for each parser state, over the claim's
byte set: token characters (`isToken`, which includes `*` and `/`), the
structural bytes `/`, `;`, `=`, `,`, and whitespace (quoted values
excluded). Each rule mirrors the machine: `*` and `/` are dispatched
before the token test only in the states that test for them
(`EXPECT_TYPE` for `*`, `CONTINUE_TYPE` for `/`), and remain ordinary
token bytes everywhere else; end of input is permitted in every state in
which the machine accepts it (committing the current range, or, in
`EXPECT_TYPE`, committing nothing). `Lang s cs` says the machine, run
from state `s`, consumes `cs` without error. -/
inductive Lang : State → List Char → Prop where
  | etEnd : Lang State.EXPECT_TYPE []
  | etWs {c cs} : isWhitespace c.toNat = true → Lang State.EXPECT_TYPE cs →
      Lang State.EXPECT_TYPE (c :: cs)
  | etTok {c cs} : isToken c.toNat = true → c.toNat ≠ ASTERISK →
      Lang State.CONTINUE_TYPE cs → Lang State.EXPECT_TYPE (c :: cs)
  | etStarStar {c1 c2 c3 cs} : c1.toNat = ASTERISK → c2.toNat = SLASH →
      c3.toNat = ASTERISK → Lang State.EXPECT_COMMA_OR_SEMICOLON cs →
      Lang State.EXPECT_TYPE (c1 :: c2 :: c3 :: cs)
  | etStarSub {c1 c2 c3 cs} : c1.toNat = ASTERISK → c2.toNat = SLASH →
      isToken c3.toNat = true → c3.toNat ≠ ASTERISK →
      Lang State.CONTINUE_SUBTYPE cs →
      Lang State.EXPECT_TYPE (c1 :: c2 :: c3 :: cs)
  | etStarEnd {c1 c2} : c1.toNat = ASTERISK → c2.toNat = SLASH →
      Lang State.EXPECT_TYPE [c1, c2]
  | ctEnd : Lang State.CONTINUE_TYPE []
  | ctTok {c cs} : isToken c.toNat = true → c.toNat ≠ SLASH →
      Lang State.CONTINUE_TYPE cs → Lang State.CONTINUE_TYPE (c :: cs)
  | ctSlash {c cs} : c.toNat = SLASH → Lang State.EXPECT_SUBTYPE cs →
      Lang State.CONTINUE_TYPE (c :: cs)
  | esEnd : Lang State.EXPECT_SUBTYPE []
  | esTok {c cs} : isToken c.toNat = true → Lang State.CONTINUE_SUBTYPE cs →
      Lang State.EXPECT_SUBTYPE (c :: cs)
  | csEnd : Lang State.CONTINUE_SUBTYPE []
  | csTok {c cs} : isToken c.toNat = true → Lang State.CONTINUE_SUBTYPE cs →
      Lang State.CONTINUE_SUBTYPE (c :: cs)
  | csSemi {c cs} : c.toNat = SEMICOLON → Lang State.EXPECT_PARAMETER_NAME cs →
      Lang State.CONTINUE_SUBTYPE (c :: cs)
  | csComma {c cs} : c.toNat = COMMA → Lang State.EXPECT_TYPE cs →
      Lang State.CONTINUE_SUBTYPE (c :: cs)
  | ecsEnd : Lang State.EXPECT_COMMA_OR_SEMICOLON []
  | ecsWs {c cs} : isWhitespace c.toNat = true →
      Lang State.EXPECT_COMMA_OR_SEMICOLON cs →
      Lang State.EXPECT_COMMA_OR_SEMICOLON (c :: cs)
  | ecsSemi {c cs} : c.toNat = SEMICOLON → Lang State.EXPECT_PARAMETER_NAME cs →
      Lang State.EXPECT_COMMA_OR_SEMICOLON (c :: cs)
  | ecsComma {c cs} : c.toNat = COMMA → Lang State.EXPECT_TYPE cs →
      Lang State.EXPECT_COMMA_OR_SEMICOLON (c :: cs)
  | epnEnd : Lang State.EXPECT_PARAMETER_NAME []
  | epnOws {c cs} : isOWS c.toNat = true → Lang State.EXPECT_PARAMETER_NAME cs →
      Lang State.EXPECT_PARAMETER_NAME (c :: cs)
  | epnTok {c cs} : isToken c.toNat = true →
      Lang State.CONTINUE_PARAMETER_NAME cs →
      Lang State.EXPECT_PARAMETER_NAME (c :: cs)
  | cpnEnd : Lang State.CONTINUE_PARAMETER_NAME []
  | cpnTok {c cs} : isToken c.toNat = true →
      Lang State.CONTINUE_PARAMETER_NAME cs →
      Lang State.CONTINUE_PARAMETER_NAME (c :: cs)
  | cpnEq {c cs} : c.toNat = EQUALS → Lang State.EXPECT_PARAMETER_VALUE cs →
      Lang State.CONTINUE_PARAMETER_NAME (c :: cs)
  | epvEnd : Lang State.EXPECT_PARAMETER_VALUE []
  | epvTok {c cs} : isToken c.toNat = true →
      Lang State.CONTINUE_PARAMETER_VALUE cs →
      Lang State.EXPECT_PARAMETER_VALUE (c :: cs)
  | epvEq {c cs} : c.toNat = EQUALS → Lang State.EXPECT_PARAMETER_VALUE cs →
      Lang State.EXPECT_PARAMETER_VALUE (c :: cs)
  | cpvEnd : Lang State.CONTINUE_PARAMETER_VALUE []
  | cpvTok {c cs} : isToken c.toNat = true →
      Lang State.CONTINUE_PARAMETER_VALUE cs →
      Lang State.CONTINUE_PARAMETER_VALUE (c :: cs)
  | cpvSemi {c cs} : c.toNat = SEMICOLON → Lang State.EXPECT_PARAMETER_NAME cs →
      Lang State.CONTINUE_PARAMETER_VALUE (c :: cs)
  | cpvComma {c cs} : c.toNat = COMMA → Lang State.EXPECT_TYPE cs →
      Lang State.CONTINUE_PARAMETER_VALUE (c :: cs)

/-- The q entry of a parameter map is absent or empty, so the commit's
truthiness test skips the q extraction. -/
def qSafeP (ps : Params) : Prop := ∀ v, jsGet ps "q" = some v → v = ""

/-- Machine-configuration invariant carried through grammar runs: outside
`EXPECT_TYPE` the current accept exists and its q entry (if any) is empty;
in the parameter states the current parameter name is non-empty
(`EXPECT_PARAMETER_VALUE`, reached after `=`), resp. not `"q"`
(`CONTINUE_PARAMETER_VALUE`, reached after pushing a value byte onto a
non-empty name). -/
def StateHyp : State → Option Accept → String → Prop
  | State.EXPECT_TYPE, _, _ => True
  | State.CONTINUE_PARAMETER_NAME, cur, pname =>
      (∃ a, cur = some a ∧ qSafeP a.parameters) ∧ pname ≠ ""
  | State.EXPECT_PARAMETER_VALUE, cur, pname =>
      (∃ a, cur = some a ∧ qSafeP a.parameters) ∧ pname ≠ ""
  | State.CONTINUE_PARAMETER_VALUE, cur, pname =>
      (∃ a, cur = some a ∧ qSafeP a.parameters) ∧ pname ≠ "q"
  | _, cur, _ => ∃ a, cur = some a ∧ qSafeP a.parameters

/-- A thousand distinct parameters: enough for the parameter count to
cancel the 1000-point weight of a concrete type in `score`. -/
def cexManyParams : Params :=
  (List.range 1000).map (fun n => (toString n, some ""))

/-- Shape invariant of the machine's current accept: its type is never
empty, and a `"*"` type still carries its initial subtype, of length at
most 1 (the `CONTINUE_SUBTYPE` state appends continuing bytes to `type`,
so a subtype set in `EXPECT_SUBTYPE` never grows). -/
def curInv (a : Accept) : Prop :=
  a.type ≠ "" ∧ (a.type = "*" → a.subtype.length ≤ 1)

/-! ### Helper lemmas -/

theorem push_ne_empty (s : String) (c : Char) : s.push c ≠ "" := by
  intro h
  have h2 := congrArg String.length h
  rw [String.length_push] at h2
  have h3 : ("" : String).length = 0 := rfl
  omega

theorem push_ne_star {s : String} (hs : s ≠ "") (c : Char) : s.push c ≠ "*" := by
  intro h
  have h2 := congrArg String.length h
  rw [String.length_push] at h2
  have h3 : ("*" : String).length = 1 := rfl
  have h4 : s.length = 0 := by omega
  exact hs (String.ext (List.eq_nil_of_length_eq_zero h4))

theorem singleton_ne_empty (c : Char) : String.singleton c ≠ "" := by
  intro h
  have h2 := congrArg String.length h
  rw [String.length_singleton] at h2
  have h3 : ("" : String).length = 0 := rfl
  omega

theorem push_ne_q {s : String} (hs : s ≠ "") (c : Char) : s.push c ≠ "q" := by
  intro h
  have h2 := congrArg String.length h
  rw [String.length_push] at h2
  have h3 : ("q" : String).length = 1 := rfl
  have h4 : s.length = 0 := by omega
  exact hs (String.ext (List.eq_nil_of_length_eq_zero h4))

/-- Committing a range never changes its type or subtype. -/
theorem acceptNext_type_subtype {a a' : Accept}
    (h : acceptNext a = Except.ok a') : a'.type = a.type ∧ a'.subtype = a.subtype := by
  unfold acceptNext at h
  split at h
  · split at h
    · split at h
      · exact absurd h (by simp)
      · split at h
        · exact absurd h (by simp)
        · cases h
          exact ⟨rfl, rfl⟩
    · cases h
      exact ⟨rfl, rfl⟩
  · cases h
    exact ⟨rfl, rfl⟩

/-- A q-safe current accept commits unchanged. -/
theorem acceptNext_qSafe {a : Accept} (h : qSafeP a.parameters) :
    acceptNext a = Except.ok a := by
  unfold acceptNext
  cases hq : jsGet a.parameters "q" with
  | none => rfl
  | some v =>
    have hv := h v hq
    subst hv
    simp

theorem lookup_setParam (ps : Params) (k : String) (v : Option String) (k' : String) :
    List.lookup k' (setParam ps k v) = if k' == k then some v else List.lookup k' ps := by
  induction ps with
  | nil =>
    by_cases h : k' = k
    · simp [setParam, List.lookup, h]
    · have hf : (k' == k) = false := beq_eq_false_iff_ne.mpr h
      simp [setParam, List.lookup, hf, h]
  | cons p rest ih =>
    obtain ⟨pk, pv⟩ := p
    by_cases hpk : pk = k
    · subst hpk
      by_cases hk' : k' = pk
      · simp [setParam, List.lookup, hk']
      · have hf : (k' == pk) = false := beq_eq_false_iff_ne.mpr hk'
        simp [setParam, List.lookup, hf, hk']
    · have hpkf : (pk == k) = false := beq_eq_false_iff_ne.mpr hpk
      by_cases hk' : k' = pk
      · subst hk'
        have hkf : (k' == k) = false := beq_eq_false_iff_ne.mpr hpk
        simp [setParam, List.lookup, hpkf, hkf]
      · have hk'f : (k' == pk) = false := beq_eq_false_iff_ne.mpr hk'
        simp [setParam, List.lookup, hpkf, hk'f, ih]

theorem jsGet_setParam (ps : Params) (k : String) (v : Option String) (k' : String) :
    jsGet (setParam ps k v) k' = if k' == k then v else jsGet ps k' := by
  unfold jsGet
  rw [lookup_setParam]
  by_cases h : k' = k <;> simp [h, Option.join]

theorem qSafeP_nil : qSafeP [] := by
  intro v hv
  simp [jsGet, List.lookup] at hv

theorem qSafeP_setParam_empty {ps : Params} (h : qSafeP ps) (k : String) :
    qSafeP (setParam ps k (some "")) := by
  intro v hv
  rw [jsGet_setParam] at hv
  by_cases hk : "q" = k
  · simp [hk] at hv
    exact hv.symm
  · simp [hk] at hv
    exact h v hv

theorem qSafeP_setParam_ne {ps : Params} (h : qSafeP ps) {k : String}
    (hk : k ≠ "q") (v : Option String) : qSafeP (setParam ps k v) := by
  intro w hw
  rw [jsGet_setParam] at hw
  have : ("q" == k) = false := by simp [Ne.symm hk]
  rw [this] at hw
  simp at hw
  exact h w hw

theorem qSafeP_appendParam {ps : Params} (h : qSafeP ps) {k : String}
    (hk : k ≠ "q") (s : String) : qSafeP (appendParam ps k s) :=
  qSafeP_setParam_ne h hk _

/-- One-step unfolding: whitespace in `EXPECT_TYPE` is skipped. -/
theorem run_et_ws {c : Char} (hc : isWhitespace c.toNat = true)
    (rest : List Char) (cur : Option Accept) (pname : String) (acc : List Accept) :
    parseAcceptsRun (c :: rest) State.EXPECT_TYPE cur pname acc =
      parseAcceptsRun rest State.EXPECT_TYPE cur pname acc := by
  cases rest with
  | nil => simp only [parseAcceptsRun, hc, if_pos]
  | cons c2 rest2 =>
    cases rest2 with
    | nil => simp only [parseAcceptsRun, hc, if_pos]
    | cons c3 rest3 => simp only [parseAcceptsRun, hc, if_pos]

/-- One-step unfolding: a token byte in `EXPECT_TYPE` starts a fresh range. -/
theorem run_et_tok {c : Char} (hws : isWhitespace c.toNat = false)
    (hast : (c.toNat == ASTERISK) = false) (htok : isToken c.toNat = true)
    (rest : List Char) (cur : Option Accept) (pname : String) (acc : List Accept) :
    parseAcceptsRun (c :: rest) State.EXPECT_TYPE cur pname acc =
      parseAcceptsRun rest State.CONTINUE_TYPE
        (some { type := String.singleton c, subtype := "", parameters := [], q := 1 })
        pname acc := by
  cases rest with
  | nil => simp [parseAcceptsRun, hws, hast, htok]
  | cons c2 rest2 =>
    cases rest2 with
    | nil => simp [parseAcceptsRun, hws, hast, htok]
    | cons c3 rest3 => simp [parseAcceptsRun, hws, hast, htok]

/-! ### Claim theorems -/

/-- C1: the claim states that for the matcher built over
`["application/json", "application/graphql-response+json", "text/html"]`,
`select("text/html")` returns `"text/html"`. In the code, the
`CONTINUE_SUBTYPE` state appends continuing bytes to `type` instead of
`subtype`, so the header parses as type `"texttml"`, subtype `"h"`; no
digest matches and select returns (and caches) `null`. This theorem
evaluates the code at the failing input. -/
theorem C1_select_text_html_is_null :
    preferredAccept
        (makeTypeDigests
          ["application/json", "application/graphql-response+json", "text/html"])
        ["application/json", "application/graphql-response+json", "text/html"]
        initialLRU (some "text/html") =
      (Except.ok none, { maxLength := 50, entries := [("text/html", none)] }) ∧
    parseAccepts "text/html" =
      Except.ok [{ type := "texttml", subtype := "h", parameters := [], q := 1 }] :=
  ⟨rfl, rfl⟩

/-- C2: the claim states that in `EXPECT_PARAMETER_VALUE` a token byte
becomes the first character of the parameter's value and any byte other
than `"` or a token fails. In the code the token byte is appended to
`currentParameterName` (so `a/b;x=yz` yields keys `"x"` (empty value,
set at `=`) and `"xy"` (holding `"undefined" + "z"`), instead of
`x = "yz"`), and an `=` byte is tolerated, staying in
`EXPECT_PARAMETER_VALUE` instead of failing. This theorem evaluates the
code at both failing inputs. -/
theorem C2_expect_parameter_value_divergence :
    parseAccepts "a/b;x=yz" =
      Except.ok [{ type := "a", subtype := "b",
                   parameters := [("x", some ""), ("xy", some "undefinedz")], q := 1 }] ∧
    parseAccepts "a/b;x==" =
      Except.ok [{ type := "a", subtype := "b",
                   parameters := [("x", some "")], q := 1 }] :=
  ⟨rfl, rfl⟩

/-- C3: the claim states that the key `"q"` never survives in a parsed
range's `parameters` and that a supplied q is parsed into the `q` field.
In the code, the first value byte is appended to the parameter name, so
`a/b;q=0.5` stores `("q", "")` (set at `=`) and `("q0", "undefined.5")`;
at commit the truthiness test `if (parameters.q)` sees the empty string
and skips extraction, leaving the key `"q"` in `parameters` and `q = 1`.
This theorem evaluates the code at the failing input. -/
theorem C3_q_key_survives_in_parameters :
    parseAccepts "a/b;q=0.5" =
      Except.ok [{ type := "a", subtype := "b",
                   parameters := [("q", some ""), ("q0", some "undefined.5")], q := 1 }] ∧
    jsGet [("q", some ""), ("q0", some "undefined.5")] "q" = some "" :=
  ⟨rfl, rfl⟩

/-- C4 counterexample: the claim states every parsed range with type `"*"`
has subtype `"*"`; but the parser accepts `*/h`, committing a range with
type `"*"` and subtype `"h"`. -/
theorem C4_counterexample_star_slash_h :
    parseAccepts "*/h" =
      Except.ok [{ type := "*", subtype := "h", parameters := [], q := 1 }] ∧
    ("h" : String) ≠ "*" :=
  ⟨rfl, by decide⟩

/-- C5 counterexample: the claim states the digester never produces a
digest with type `"*"` for any input list; but the digester does not
validate, and the registered string `"*/x"` digests to type `"*"`. -/
theorem C5_counterexample_star_server :
    (digestOf "*/x").type = "*" := rfl

/-- C5 (amended): the digester copies the type component verbatim, so a
digest has type `"*"` only when the registered string's own type component
is `"*"`; for every list of strings whose type component is not `"*"`, no
digest has type `"*"`. -/
theorem C5_no_wildcard_digest (mediaTypes : List String)
    (h : ∀ t ∈ mediaTypes, typeComponentOf t ≠ "*") :
    ∀ d ∈ makeTypeDigests mediaTypes, d.type ≠ "*" := by
  intro d hd
  simp only [makeTypeDigests, List.mem_map] at hd
  obtain ⟨t, ht, rfl⟩ := hd
  have he : (digestOf t).type = typeComponentOf t := rfl
  rw [he]
  exact h t ht

/-- C5 witness: the amended theorem applied to the concrete server list
`["application/json"]`. -/
theorem C5_no_wildcard_digest_witness :
    (digestOf "application/json").type ≠ "*" :=
  C5_no_wildcard_digest ["application/json"] (by decide)
    (digestOf "application/json") (by simp [makeTypeDigests])

/-! ### The matcher's best-match loop (C6) -/

theorem selectLoop_nil_specs (ds : List TypeDigest) (q : ℚ) (b : Option String) :
    selectLoop ds [] q b = b := by
  induction ds with
  | nil => rfl
  | cons d rest ih =>
    simp only [selectLoop, findSpec, List.find?]
    exact ih

/-- The digest loop, seeded with a non-falsy current best `t` of quality
`q`, computes the reference maximum of the remaining digests, keeping `t`
on ties. -/
theorem selectLoop_seeded (specs : List Accept) :
    ∀ ds : List TypeDigest, (∀ d ∈ ds, d.originalType ≠ "") →
      ∀ (q : ℚ) (t : String), t ≠ "" →
        selectLoop ds specs q (some t) =
          (match bestOf ds specs with
           | none => some t
           | some (q', t') => if q < q' then some t' else some t) := by
  intro ds
  induction ds with
  | nil =>
    intro _ q t _
    simp [selectLoop, bestOf]
  | cons d rest ih =>
    intro hds q t ht
    have hd : d.originalType ≠ "" := hds d (List.mem_cons_self d rest)
    have hrest : ∀ x ∈ rest, x.originalType ≠ "" :=
      fun x hx => hds x (List.mem_cons_of_mem d hx)
    have hfalsy : jsFalsy (some t) = false := by simp [jsFalsy, ht]
    cases hf : findSpec d specs with
    | none =>
      simp only [selectLoop, bestOf, hf]
      exact ih hrest q t ht
    | some m =>
      simp only [selectLoop, bestOf, hf, hfalsy]
      rcases lt_or_le q m.q with hlt | hle
      · rw [if_pos (Or.inr hlt)]
        rw [ih hrest m.q d.originalType hd]
        cases hbo : bestOf rest specs with
        | none => simp [hlt]
        | some p =>
          obtain ⟨q', t'⟩ := p
          rcases lt_or_le m.q q' with hq' | hq'
          · simp only [if_pos hq']
            have : q < q' := lt_trans hlt hq'
            simp [this]
          · simp only [if_neg (not_lt.mpr hq')]
            simp [hlt]
      · have hcond : ¬(false = true ∨ m.q > q) := by
          simp only [Bool.false_eq_true, false_or]
          exact not_lt.mpr hle
        rw [if_neg hcond]
        rw [ih hrest q t ht]
        cases hbo : bestOf rest specs with
        | none =>
          have : ¬(q < m.q) := not_lt.mpr hle
          simp [this]
        | some p =>
          obtain ⟨q', t'⟩ := p
          rcases lt_or_le m.q q' with hq' | hq'
          · simp [if_pos hq']
          · simp only [if_neg (not_lt.mpr hq')]
            have h1 : ¬(q < m.q) := not_lt.mpr hle
            have h2 : ¬(q < q') := not_lt.mpr (le_trans hq' hle)
            simp [h1, h2]

/-- The digest loop from the initial state (`bestQ = 0`,
`bestMediaType = null`) computes the reference maximum. -/
theorem selectLoop_from_none (specs : List Accept) :
    ∀ ds : List TypeDigest, (∀ d ∈ ds, d.originalType ≠ "") →
      ∀ q : ℚ, selectLoop ds specs q none = (bestOf ds specs).map Prod.snd := by
  intro ds
  induction ds with
  | nil =>
    intro _ q
    simp [selectLoop, bestOf]
  | cons d rest ih =>
    intro hds q
    have hd : d.originalType ≠ "" := hds d (List.mem_cons_self d rest)
    have hrest : ∀ x ∈ rest, x.originalType ≠ "" :=
      fun x hx => hds x (List.mem_cons_of_mem d hx)
    cases hf : findSpec d specs with
    | none =>
      simp only [selectLoop, bestOf, hf]
      exact ih hrest q
    | some m =>
      simp only [selectLoop, bestOf, hf]
      have hfn : jsFalsy none = true := rfl
      rw [if_pos (Or.inl hfn)]
      rw [selectLoop_seeded specs rest hrest m.q d.originalType hd]
      cases hbo : bestOf rest specs with
      | none => simp
      | some p =>
        obtain ⟨q', t'⟩ := p
        rcases lt_or_le m.q q' with hq' | hq'
        · simp [if_pos hq']
        · simp only [if_neg (not_lt.mpr hq')]
          have : ¬(m.q < q') := not_lt.mpr hq'
          simp [this]

theorem bestOf_eq_none_iff (ds : List TypeDigest) (specs : List Accept) :
    bestOf ds specs = none ↔ ∀ d ∈ ds, findSpec d specs = none := by
  induction ds with
  | nil => simp [bestOf]
  | cons d rest ih =>
    cases hf : findSpec d specs with
    | none => simp [bestOf, hf, ih]
    | some m =>
      simp only [bestOf, hf]
      constructor
      · intro hnone
        exfalso
        cases hbo : bestOf rest specs with
        | none => simp [hbo] at hnone
        | some p =>
          obtain ⟨q', t'⟩ := p
          simp only [hbo] at hnone
          by_cases hq : m.q < q'
          · simp [hq] at hnone
          · simp [hq] at hnone
      · intro hall
        exact absurd (hall d (List.mem_cons_self d rest)) (by rw [hf]; simp)

/-- C6 counterexample: the claim says ties on q are broken by registration
order (earliest wins). Register the empty string first: both digests match
`*/*` with equal `q = 1`, yet select returns the later `"x/y"`, because the
truthiness test `!bestMediaType` treats the recorded best `""` as "no
result yet" and lets the later digest displace it. -/
theorem C6_counterexample_empty_server :
    selectBest (makeTypeDigests ["", "x/y"])
        [{ type := "*", subtype := "*", parameters := [], q := 1 }] = some "x/y" ∧
    findSpec (digestOf "")
        [{ type := "*", subtype := "*", parameters := [], q := 1 }] =
      some { type := "*", subtype := "*", parameters := [], q := 1 } ∧
    findSpec (digestOf "x/y")
        [{ type := "*", subtype := "*", parameters := [], q := 1 }] =
      some { type := "*", subtype := "*", parameters := [], q := 1 } ∧
    parseAccepts "*/*" =
      Except.ok [{ type := "*", subtype := "*", parameters := [], q := 1 }] :=
  ⟨rfl, rfl, rfl, rfl⟩

/-- C6 (amended): on a cache miss with a parseable header, and provided
every registered media type is a non-empty string (the truthiness check
`!bestMediaType` otherwise treats a recorded best `""` as absent), select
returns the `originalType` of the digest whose first matching range (in
precedence-sorted order) has the highest q, earliest registration winning
ties, a q of 0 still counting; and the result is null exactly when no
digest matches any range. -/
theorem C6_best_match_selection (typeDigests : List TypeDigest)
    (mediaTypes : List String) (lru : LRUModel) (h : String) (specs : List Accept)
    (hmiss : (lruGet lru h).1 = none)
    (hparse : parseAccepts h = Except.ok specs)
    (hne : ∀ d ∈ typeDigests, d.originalType ≠ "") :
    (preferredAccept typeDigests mediaTypes lru (some h)).1 =
      Except.ok ((bestOf typeDigests specs).map Prod.snd) ∧
    (bestOf typeDigests specs = none ↔
      ∀ d ∈ typeDigests, findSpec d specs = none) := by
  refine ⟨?_, bestOf_eq_none_iff typeDigests specs⟩
  rcases hg : lruGet lru h with ⟨fst, lru2⟩
  rw [hg] at hmiss
  simp only at hmiss
  subst hmiss
  simp only [preferredAccept, hg, hparse]
  unfold selectBest
  rw [selectLoop_from_none specs typeDigests hne 0]

/-- C6 witness: the theorem applied to the matcher over `["a/b"]` and the
header `"a/b"`. -/
theorem C6_best_match_selection_witness :
    (preferredAccept (makeTypeDigests ["a/b"]) ["a/b"] initialLRU (some "a/b")).1 =
      Except.ok ((bestOf (makeTypeDigests ["a/b"])
        [{ type := "a", subtype := "b", parameters := [], q := 1 }]).map Prod.snd) ∧
    (bestOf (makeTypeDigests ["a/b"])
        [{ type := "a", subtype := "b", parameters := [], q := 1 }] = none ↔
      ∀ d ∈ makeTypeDigests ["a/b"],
        findSpec d [{ type := "a", subtype := "b", parameters := [], q := 1 }] = none) :=
  C6_best_match_selection (makeTypeDigests ["a/b"]) ["a/b"] initialLRU "a/b"
    [{ type := "a", subtype := "b", parameters := [], q := 1 }] rfl rfl (by decide)

/-! ### Error propagation (C9) and whitespace-only headers (C10) -/

/-- C9: the claim says a parse error surfaces to the caller of select and
the cache is left unchanged, so a retry re-parses and fails identically.
On a miss the modelled lookup leaves the cache as it was, the parse error
propagates, and no insertion happens; since `preferredAccept` is a pure
function of the (unchanged) cache and header, a retry returns the same
error. The `@graphile/lru` cache is modelled from the spec. -/
theorem C9_parse_error_propagates (typeDigests : List TypeDigest)
    (mediaTypes : List String) (lru : LRUModel) (h e : String)
    (hmiss : (lruGet lru h).1 = none)
    (hparse : parseAccepts h = Except.error e) :
    preferredAccept typeDigests mediaTypes lru (some h) = (Except.error e, lru) := by
  have hg : lruGet lru h = (none, lru) := by
    unfold lruGet at hmiss ⊢
    cases hl : List.lookup h lru.entries with
    | none => rfl
    | some v =>
      rw [hl] at hmiss
      simp at hmiss
  simp only [preferredAccept, hg, hparse]

/-- C9 witness: the theorem applied to a fresh matcher and the malformed
header `"@"`. -/
theorem C9_parse_error_propagates_witness :
    preferredAccept [] [] initialLRU (some "@") =
      (Except.error "Unexpected character", initialLRU) :=
  C9_parse_error_propagates [] [] initialLRU "@" "Unexpected character" rfl rfl

/-- In `EXPECT_TYPE`, whitespace bytes are skipped without committing. -/
theorem run_whitespace (cs : List Char)
    (hws : ∀ c ∈ cs, isWhitespace c.toNat = true)
    (cur : Option Accept) (pname : String) (acc : List Accept) :
    parseAcceptsRun cs State.EXPECT_TYPE cur pname acc = Except.ok acc := by
  induction cs with
  | nil => rfl
  | cons c rest ih =>
    rw [run_et_ws (hws c (List.mem_cons_self c rest))]
    exact ih fun x hx => hws x (List.mem_cons_of_mem c hx)

/-- C10: the claim says a header of only whitespace bytes (including the
empty header) parses to no ranges and select answers (and caches) `null`,
unlike the absent header, which returns the first registered type. -/
theorem C10_whitespace_header_null (h : String) (typeDigests : List TypeDigest)
    (mediaTypes : List String)
    (hws : ∀ c ∈ h.toList, isWhitespace c.toNat = true) :
    parseAccepts h = Except.ok [] ∧
    preferredAccept typeDigests mediaTypes initialLRU (some h) =
      (Except.ok none, { maxLength := 50, entries := [(h, none)] }) ∧
    preferredAccept typeDigests mediaTypes initialLRU none =
      (Except.ok mediaTypes.head?, initialLRU) := by
  have hp : parseAccepts h = Except.ok [] := by
    unfold parseAccepts
    rw [run_whitespace h.toList hws]
    rfl
  refine ⟨hp, ?_, rfl⟩
  have hmiss : lruGet initialLRU h = (none, initialLRU) := rfl
  have hsel : selectBest typeDigests [] = none :=
    selectLoop_nil_specs typeDigests 0 none
  simp only [preferredAccept, hmiss, hp, hsel]
  rfl

/-- C10 witness: the theorem applied to the single-space header and the
matcher over `["application/json"]`. -/
theorem C10_whitespace_header_null_witness :
    parseAccepts " " = Except.ok [] ∧
    preferredAccept (makeTypeDigests ["application/json"]) ["application/json"]
        initialLRU (some " ") =
      (Except.ok none, { maxLength := 50, entries := [(" ", none)] }) ∧
    preferredAccept (makeTypeDigests ["application/json"]) ["application/json"]
        initialLRU none =
      (Except.ok (["application/json"] : List String).head?, initialLRU) :=
  C10_whitespace_header_null " " (makeTypeDigests ["application/json"])
    ["application/json"] (by decide)

/-! ### The wildcard-subtype invariant (C4) -/

theorem jsNonNull_ok {cur : Option Accept} {a : Accept}
    (h : jsNonNull cur = Except.ok a) : cur = some a := by
  cases cur with
  | none => exact absurd h (by simp [jsNonNull])
  | some b =>
    have hb : b = a := by simpa [jsNonNull] using h
    rw [hb]

/-- A committed range inherits the current accept's wildcard-subtype bound. -/
theorem commit_inv {cur : Option Accept} {a' : Accept}
    (hx : commitCur cur = Except.ok a')
    (hcur : ∀ a, cur = some a → curInv a) :
    a'.type = "*" → a'.subtype.length ≤ 1 := by
  cases cur with
  | none => exact absurd hx (by simp [commitCur])
  | some a0 =>
    have hx' : acceptNext a0 = Except.ok a' := hx
    have hts := acceptNext_type_subtype hx'
    intro hstar
    rw [hts.2]
    refine (hcur a0 rfl).2 ?_
    rw [← hts.1]
    exact hstar

/-- Appending a committed range preserves the accumulated invariant. -/
theorem acc_snoc_inv {acc : List Accept} {a' : Accept} {cur : Option Accept}
    (hacc : ∀ a ∈ acc, a.type = "*" → a.subtype.length ≤ 1)
    (hcur : ∀ a, cur = some a → curInv a)
    (hx : commitCur cur = Except.ok a') :
    ∀ a ∈ acc ++ [a'], a.type = "*" → a.subtype.length ≤ 1 := by
  intro a ha
  rcases List.mem_append.mp ha with h1 | h2
  · exact hacc a h1
  · rw [List.mem_singleton.mp h2]
    exact commit_inv hx hcur

/-- Every range the machine ever commits satisfies the wildcard-subtype
bound, given the configuration invariants. -/
theorem run_star_inv :
    ∀ (cs : List Char) (state : State) (cur : Option Accept) (pname : String)
      (acc : List Accept) (l : List Accept),
      parseAcceptsRun cs state cur pname acc = Except.ok l →
      (∀ a, cur = some a → curInv a) →
      (∀ a ∈ acc, a.type = "*" → a.subtype.length ≤ 1) →
      ∀ a ∈ l, a.type = "*" → a.subtype.length ≤ 1 := by
  intro cs state cur pname acc
  induction cs, state, cur, pname, acc using parseAcceptsRun.induct
  all_goals intro l hrun hcur hacc
  all_goals try simp only [parseAcceptsRun] at hrun
  all_goals try simp [*] at hrun
  all_goals try solve_by_elim
  case case1 cur pn acc =>
    exact hrun ▸ hacc
  case case3 state cur pn acc hne a1 hx =>
    exact hrun ▸ acc_snoc_inv hacc hcur hx
  case case4 c rest cur pn acc hws ih =>
    rw [run_et_ws hws] at hrun
    exact ih l hrun hcur hacc
  case case6 c cur pn acc hws hast c2 rest2 hsl =>
    cases rest2 <;> simp [parseAcceptsRun, *] at hrun
  case case7 c cur pn acc hws hast c2 hsl c3 rest3 h3 ih =>
    refine ih l hrun (fun a ha => ?_) hacc
    cases ha
    exact ⟨by decide, fun _ => by decide⟩
  case case8 c cur pn acc h4 h3 c2 h2 c3 rest3 h1 h0 ih =>
    refine ih l hrun (fun a ha => ?_) hacc
    cases ha
    constructor
    · show ("*" : String) ≠ ""
      decide
    · intro _
      show (String.singleton c3).length ≤ 1
      simp [String.length_singleton]
  case case10 c cur pn acc h2 h1 c2 h0 =>
    subst hrun
    intro a ha
    rcases List.mem_append.mp ha with hm | hm
    · exact hacc a hm
    · rw [List.mem_singleton.mp hm]
      intro _
      decide
  case case11 c rest cur pn acc hws hast htok ih =>
    have hws' : isWhitespace c.toNat = false := by simpa using hws
    have hast' : (c.toNat == ASTERISK) = false := by simpa using hast
    rw [run_et_tok hws' hast' htok] at hrun
    refine ih l hrun (fun a ha => ?_) hacc
    cases ha
    constructor
    · exact singleton_ne_empty c
    · intro _
      show ("" : String).length ≤ 1
      decide
  case case12 c rest cur pn acc hws hast htok =>
    cases rest with
    | nil => simp [parseAcceptsRun, *] at hrun
    | cons c2 r2 => cases r2 <;> simp [parseAcceptsRun, *] at hrun
  case case15 c rest cur pn acc h1 htok a1 hx ih =>
    have hA := hcur a1 (jsNonNull_ok hx)
    refine ih l hrun (fun a ha => ?_) hacc
    cases ha
    exact ⟨push_ne_empty _ c, fun h2 => absurd h2 (push_ne_star hA.1 c)⟩
  case case18 c rest cur pn acc htok a1 hx ih =>
    have hA := hcur a1 (jsNonNull_ok hx)
    refine ih l hrun (fun a ha => ?_) hacc
    cases ha
    exact ⟨hA.1, fun _ => by simp [String.length_singleton]⟩
  case case22 c rest cur pn acc h1 h0 a1 hx ih =>
    exact ih l hrun (fun a ha => Option.noConfusion ha) (acc_snoc_inv hacc hcur hx)
  case case24 c rest cur pn acc h2 h1 h0 a1 hx ih =>
    have hA := hcur a1 (jsNonNull_ok hx)
    refine ih l hrun (fun a ha => ?_) hacc
    cases ha
    exact ⟨push_ne_empty _ c, fun h2 => absurd h2 (push_ne_star hA.1 c)⟩
  case case29 c rest cur pn acc h2 h1 h0 a1 hx ih =>
    exact ih l hrun (fun a ha => Option.noConfusion ha) (acc_snoc_inv hacc hcur hx)
  case case36 c rest cur pn acc h1 h0 a1 hx ih =>
    have hA := hcur a1 (jsNonNull_ok hx)
    refine ih l hrun (fun a ha => ?_) hacc
    cases ha
    exact ⟨hA.1, hA.2⟩
  case case44 c rest cur pn acc h1 h0 a1 hx ih =>
    exact ih l hrun (fun a ha => Option.noConfusion ha) (acc_snoc_inv hacc hcur hx)
  case case46 c rest cur pn acc h2 h1 h0 a1 hx ih =>
    have hA := hcur a1 (jsNonNull_ok hx)
    refine ih l hrun (fun a ha => ?_) hacc
    cases ha
    exact ⟨hA.1, hA.2⟩
  case case48 c rest cur pn acc hq ih =>
    cases rest with
    | nil =>
      simp only [parseAcceptsRun, hq, if_pos] at hrun
      exact ih l hrun hcur hacc
    | cons c2 r2 =>
      simp only [parseAcceptsRun, hq, if_pos] at hrun
      exact ih l hrun hcur hacc
  case case51 c cur pn acc h1 h0 c2 rest2 a1 hx ih =>
    have hA := hcur a1 (jsNonNull_ok hx)
    refine ih l hrun (fun a ha => ?_) hacc
    cases ha
    exact ⟨hA.1, hA.2⟩
  case case52 c rest cur pn acc h1 h0 e hx =>
    have hcn : cur = none := by
      cases cur with
      | none => rfl
      | some b => exact absurd hx (by simp [jsNonNull])
    subst hcn
    cases rest with
    | nil => simp [parseAcceptsRun, jsNonNull, *] at hrun
    | cons c2 r2 => simp [parseAcceptsRun, jsNonNull, *] at hrun
  case case53 c rest cur pn acc h1 h0 a1 hx ih =>
    have hA := hcur a1 (jsNonNull_ok hx)
    have h1' : (c.toNat == DOUBLE_QUOTE) = false := by simpa using h1
    have h0' : (c.toNat == BACKSLASH) = false := by simpa using h0
    cases rest with
    | nil =>
      simp only [parseAcceptsRun, h1', h0', hx, Bool.false_eq_true, if_false] at hrun
      refine ih l hrun (fun a ha => ?_) hacc
      cases ha
      exact ⟨hA.1, hA.2⟩
    | cons c2 r2 =>
      simp only [parseAcceptsRun, h1', h0', hx, Bool.false_eq_true, if_false] at hrun
      refine ih l hrun (fun a ha => ?_) hacc
      cases ha
      exact ⟨hA.1, hA.2⟩

/-! ### Sorting lemmas (C4 membership, C7 sortedness) -/

theorem insertByScore_perm (a : Accept) (l : List Accept) :
    List.Perm (insertByScore a l) (a :: l) := by
  induction l with
  | nil => exact List.Perm.refl _
  | cons b rest ih =>
    by_cases h : score b ≤ score a
    · simp only [insertByScore, if_pos h]
      exact List.Perm.refl _
    · simp only [insertByScore, if_neg h]
      exact List.Perm.trans (List.Perm.cons b ih) (List.Perm.swap a b rest)

theorem sortAccepts_perm (l : List Accept) : List.Perm (sortAccepts l) l := by
  induction l with
  | nil => exact List.Perm.refl _
  | cons a rest ih =>
    simp only [sortAccepts, List.foldr_cons]
    exact List.Perm.trans (insertByScore_perm a _) (List.Perm.cons a ih)

theorem insertByScore_sorted {l : List Accept}
    (hl : l.Pairwise (fun x y => score y ≤ score x)) (a : Accept) :
    (insertByScore a l).Pairwise (fun x y => score y ≤ score x) := by
  induction l with
  | nil => simp [insertByScore]
  | cons b rest ih =>
    rcases List.pairwise_cons.mp hl with ⟨hb, hrest⟩
    by_cases h : score b ≤ score a
    · simp only [insertByScore, if_pos h]
      refine List.pairwise_cons.mpr ⟨?_, hl⟩
      intro x hx
      rcases List.mem_cons.mp hx with rfl | hx'
      · exact h
      · exact le_trans (hb x hx') h
    · simp only [insertByScore, if_neg h]
      refine List.pairwise_cons.mpr ⟨?_, ih hrest⟩
      intro x hx
      rcases List.mem_cons.mp ((insertByScore_perm a rest).mem_iff.mp hx) with rfl | hx'
      · exact le_of_lt (not_le.mp h)
      · exact hb x hx'

theorem sortAccepts_sorted (l : List Accept) :
    (sortAccepts l).Pairwise (fun x y => score y ≤ score x) := by
  induction l with
  | nil => simp [sortAccepts]
  | cons a rest ih =>
    simp only [sortAccepts, List.foldr_cons] at ih ⊢
    exact insertByScore_sorted ih a

/-- C4 (amended): the claim states every parsed range with type `"*"` has
subtype `"*"`; the parser also accepts a concrete subtype after a type
wildcard (e.g. `*/h`), so what holds is: every parsed range with type
`"*"` has a subtype of length at most 1 — `"*"`, a single token
character, or empty. -/
theorem C4_star_type_short_subtype (h : String) (l : List Accept)
    (hp : parseAccepts h = Except.ok l) :
    ∀ a ∈ l, a.type = "*" → a.subtype.length ≤ 1 := by
  unfold parseAccepts at hp
  cases hr : parseAcceptsRun h.toList State.EXPECT_TYPE none "" [] with
  | error e =>
    rw [hr] at hp
    cases hp
  | ok accepts =>
    rw [hr] at hp
    simp only at hp
    injection hp with hp
    subst hp
    intro a ha
    exact run_star_inv h.toList State.EXPECT_TYPE none "" [] accepts hr
      (fun a ha => Option.noConfusion ha)
      (fun a ha => absurd ha (List.not_mem_nil a))
      a ((sortAccepts_perm accepts).mem_iff.mp ha)

/-- C4 witness: the amended theorem applied to the header `*/h`, whose
single range has type `"*"` and the one-character subtype `"h"`. -/
theorem C4_star_type_short_subtype_witness : ("h" : String).length ≤ 1 :=
  C4_star_type_short_subtype "*/h"
    [{ type := "*", subtype := "h", parameters := [], q := 1 }] rfl
    { type := "*", subtype := "h", parameters := [], q := 1 } (by decide) rfl

/-! ### Precedence score: sortedness and monotonicity (C7) -/

/-- C7 counterexample: the claim concludes that a strictly more specific
range always scores strictly higher; but the parameter count is not
capped, so a range with one wildcard component and 1000 parameters
reaches the score of a fully concrete parameter-free range, and the
strict inequality fails. -/
theorem C7_counterexample_param_flood :
    moreSpecific { type := "a", subtype := "b", parameters := [], q := 1 }
      { type := "*", subtype := "h", parameters := cexManyParams, q := 1 } ∧
    ¬ score { type := "*", subtype := "h", parameters := cexManyParams, q := 1 } <
        score { type := "a", subtype := "b", parameters := [], q := 1 } := by
  have hlen : cexManyParams.length = 1000 := by
    simp [cexManyParams]
  constructor
  · exact Or.inl (by decide)
  · have e1 : (("*" : String) != "*") = false := by decide
    have e2 : (("h" : String) != "*") = true := by decide
    have e3 : (("a" : String) != "*") = true := by decide
    have e4 : (("b" : String) != "*") = true := by decide
    simp only [score, e1, e2, e3, e4, Bool.false_eq_true, if_false, if_true, hlen,
      List.length_nil]
    omega

/-- C7 (amended): parsed ranges come sorted in non-increasing score order,
and the precedence-monotonicity consequence holds provided each range has
at most 999 parameters — with 1000 or more, the parameter count reaches
the 1000-point weight of a concrete component and the strict inequality
can fail. -/
theorem C7_sorted_and_monotone :
    (∀ (h : String) (l : List Accept), parseAccepts h = Except.ok l →
      l.Pairwise (fun x y => score y ≤ score x)) ∧
    (∀ a b : Accept, a.parameters.length ≤ 999 → b.parameters.length ≤ 999 →
      moreSpecific a b → score b < score a) := by
  constructor
  · intro h l hp
    unfold parseAccepts at hp
    cases hr : parseAcceptsRun h.toList State.EXPECT_TYPE none "" [] with
    | error e =>
      rw [hr] at hp
      cases hp
    | ok accepts =>
      rw [hr] at hp
      simp only at hp
      injection hp with hp
      subst hp
      exact sortAccepts_sorted accepts
  · intro a b hpa hpb hms
    rcases hms with hcount | ⟨hty, hsub, _, hlen⟩
    · simp only [score, nonWildcardComponents] at hcount ⊢
      split_ifs at hcount ⊢ <;> omega
    · simp only [score]
      rw [hty, hsub]
      split_ifs <;> omega

/-- C7 witness: the theorem applied to the header `a/b, */*` and to the
concrete pair of ranges `a/b` (more specific) and `*/*`. -/
theorem C7_sorted_and_monotone_witness :
    ([{ type := "a", subtype := "b", parameters := [], q := 1 },
      { type := "*", subtype := "*", parameters := [], q := 1 }] : List Accept).Pairwise
        (fun x y => score y ≤ score x) ∧
    score { type := "*", subtype := "*", parameters := [], q := (1 : ℚ) } <
      score { type := "a", subtype := "b", parameters := [], q := 1 } :=
  ⟨C7_sorted_and_monotone.1 "a/b, */*"
      [{ type := "a", subtype := "b", parameters := [], q := 1 },
       { type := "*", subtype := "*", parameters := [], q := 1 }] rfl,
   C7_sorted_and_monotone.2
      { type := "a", subtype := "b", parameters := [], q := 1 }
      { type := "*", subtype := "*", parameters := [], q := 1 }
      (by decide) (by decide) (Or.inl (by decide))⟩

/-! ### Totality on grammar-compliant input (C8) -/

/-- A token byte is neither whitespace nor any of the bytes tested before
or instead of the token test in the parameter and subtype states
(`;`, `,`, `=`, `"`, `\\`); `*` and `/` are deliberately not excluded,
since they satisfy `isToken`. -/
theorem isToken_facts {c : Nat} (h : isToken c = true) :
    isWhitespace c = false ∧ isOWS c = false ∧ (c == SEMICOLON) = false ∧
    (c == COMMA) = false ∧ (c == EQUALS) = false ∧ (c == DOUBLE_QUOTE) = false ∧
    (c == BACKSLASH) = false := by
  simp only [isToken, isWhitespace, isOWS, SEMICOLON, COMMA, EQUALS, DOUBLE_QUOTE,
    BACKSLASH, SPACE, HORIZONTAL_TAB, WHITESPACE_START, WHITESPACE_END,
    Bool.and_eq_true, Bool.or_eq_true, Bool.or_eq_false_iff, Bool.and_eq_false_iff,
    beq_iff_eq, bne_iff_ne, ne_eq, decide_eq_true_eq, decide_eq_false_iff_not,
    not_le, not_lt, beq_eq_false_iff_ne] at h ⊢
  omega

/-- A q-safe current accept commits unchanged through `commitCur`. -/
theorem commitCur_qSafe {a : Accept} (h : qSafeP a.parameters) :
    commitCur (some a) = Except.ok a :=
  acceptNext_qSafe h

/-- Running the machine on any grammar-compliant suffix succeeds without
error, never shrinks the committed list, and commits at least one more
range except on an all-whitespace suffix in `EXPECT_TYPE`. -/
theorem run_lang {s : State} {cs : List Char} (hlang : Lang s cs) :
    ∀ (cur : Option Accept) (pname : String) (acc : List Accept),
      StateHyp s cur pname →
      ∃ l, parseAcceptsRun cs s cur pname acc = Except.ok l ∧
        acc.length ≤ l.length ∧
        ((s = State.EXPECT_TYPE → ∃ c ∈ cs, isWhitespace c.toNat = false) →
          acc.length < l.length) := by
  induction hlang with
  | etEnd =>
    intro cur pname acc _
    refine ⟨acc, ?_, le_refl _, fun hcond => ?_⟩
    · cases cur <;> simp [parseAcceptsRun]
    · obtain ⟨c, hc, _⟩ := hcond rfl
      exact absurd hc (List.not_mem_nil c)
  | etWs hw _ ih =>
    intro cur pname acc _
    rw [run_et_ws hw]
    obtain ⟨l, hrun, hle, hstrict⟩ := ih cur pname acc trivial
    refine ⟨l, hrun, hle, fun hcond => ?_⟩
    refine hstrict (fun _ => ?_)
    obtain ⟨c2, hc2, hnw⟩ := hcond rfl
    rcases List.mem_cons.mp hc2 with rfl | hmem
    · rw [hw] at hnw
      cases hnw
    · exact ⟨c2, hmem, hnw⟩
  | etTok h1 h2 _ ih =>
    intro cur pname acc _
    obtain ⟨hws, _, _, _, _, _, _⟩ := isToken_facts h1
    have hast : (_ == ASTERISK) = false := beq_eq_false_iff_ne.mpr h2
    rw [run_et_tok hws hast h1]
    obtain ⟨l, hrun, _, hstrict⟩ := ih _ pname acc ⟨⟨_, _, [], _⟩, rfl, qSafeP_nil⟩
    have hlt := hstrict (fun hst => absurd hst (by decide))
    exact ⟨l, hrun, le_of_lt hlt, fun _ => hlt⟩
  | etStarStar h1 h2 h3 _ ih =>
    intro cur pname acc _
    simp only [parseAcceptsRun, h1, h2, h3]
    simp only [(by decide : isWhitespace ASTERISK = false),
      (by decide : (ASTERISK == ASTERISK) = true),
      (by decide : (SLASH != SLASH) = false), Bool.false_eq_true, if_false, if_true]
    obtain ⟨l, hrun, _, hstrict⟩ := ih _ pname acc ⟨⟨_, _, [], _⟩, rfl, qSafeP_nil⟩
    have hlt := hstrict (fun hst => absurd hst (by decide))
    exact ⟨l, hrun, le_of_lt hlt, fun _ => hlt⟩
  | etStarSub h1 h2 h3 h4 _ ih =>
    intro cur pname acc _
    have hast : (_ == ASTERISK) = false := beq_eq_false_iff_ne.mpr h4
    simp only [parseAcceptsRun, h1, h2, hast, h3]
    simp only [(by decide : isWhitespace ASTERISK = false),
      (by decide : (ASTERISK == ASTERISK) = true),
      (by decide : (SLASH != SLASH) = false), Bool.false_eq_true, if_false, if_true]
    obtain ⟨l, hrun, _, hstrict⟩ := ih _ pname acc ⟨⟨_, _, [], _⟩, rfl, qSafeP_nil⟩
    have hlt := hstrict (fun hst => absurd hst (by decide))
    exact ⟨l, hrun, le_of_lt hlt, fun _ => hlt⟩
  | etStarEnd h1 h2 =>
    intro cur pname acc _
    refine ⟨acc ++ [{ type := "*", subtype := "", parameters := [], q := 1 }],
      ?_, by simp, fun _ => by simp⟩
    simp only [parseAcceptsRun, h1, h2]
    simp only [(by decide : isWhitespace ASTERISK = false),
      (by decide : (ASTERISK == ASTERISK) = true),
      (by decide : (SLASH != SLASH) = false), Bool.false_eq_true, if_false, if_true]
  | ctEnd =>
    intro cur pname acc hst
    obtain ⟨a, rfl, hq⟩ := hst
    refine ⟨acc ++ [a], ?_, by simp, fun _ => by simp⟩
    simp only [parseAcceptsRun, commitCur_qSafe hq]
    rfl
  | ctTok h1 h2 hL ih =>
    rename_i c cs
    intro cur pname acc hst
    obtain ⟨a, rfl, hq⟩ := hst
    have hsl : (c.toNat == SLASH) = false := beq_eq_false_iff_ne.mpr h2
    simp only [parseAcceptsRun, hsl, h1, jsNonNull, Bool.false_eq_true, if_false,
      if_true]
    obtain ⟨l, hrun, _, hstrict⟩ :=
      ih (some { type := a.type.push c, subtype := a.subtype, parameters := a.parameters, q := a.q }) pname acc ⟨_, rfl, hq⟩
    have hlt := hstrict (fun hst => absurd hst (by decide))
    exact ⟨l, hrun, le_of_lt hlt, fun _ => hlt⟩
  | ctSlash h1 _ ih =>
    intro cur pname acc hst
    obtain ⟨a, rfl, hq⟩ := hst
    simp only [parseAcceptsRun, h1, (by decide : (SLASH == SLASH) = true), if_true]
    obtain ⟨l, hrun, _, hstrict⟩ := ih _ pname acc ⟨⟨_, _, a.parameters, _⟩, rfl, hq⟩
    have hlt := hstrict (fun hst => absurd hst (by decide))
    exact ⟨l, hrun, le_of_lt hlt, fun _ => hlt⟩
  | esEnd =>
    intro cur pname acc hst
    obtain ⟨a, rfl, hq⟩ := hst
    refine ⟨acc ++ [a], ?_, by simp, fun _ => by simp⟩
    simp only [parseAcceptsRun, commitCur_qSafe hq]
    rfl
  | esTok h1 hL ih =>
    rename_i c cs
    intro cur pname acc hst
    obtain ⟨a, rfl, hq⟩ := hst
    simp only [parseAcceptsRun, h1, jsNonNull, if_true]
    obtain ⟨l, hrun, _, hstrict⟩ :=
      ih (some { type := a.type, subtype := String.singleton c, parameters := a.parameters, q := a.q }) pname acc ⟨_, rfl, hq⟩
    have hlt := hstrict (fun hst => absurd hst (by decide))
    exact ⟨l, hrun, le_of_lt hlt, fun _ => hlt⟩
  | csEnd =>
    intro cur pname acc hst
    obtain ⟨a, rfl, hq⟩ := hst
    refine ⟨acc ++ [a], ?_, by simp, fun _ => by simp⟩
    simp only [parseAcceptsRun, commitCur_qSafe hq]
    rfl
  | csTok h1 hL ih =>
    rename_i c cs
    intro cur pname acc hst
    obtain ⟨a, rfl, hq⟩ := hst
    obtain ⟨_, _, hsemi, hcomma, _, _, _⟩ := isToken_facts h1
    simp only [parseAcceptsRun, hsemi, hcomma, h1, jsNonNull, Bool.false_eq_true,
      if_false, if_true]
    obtain ⟨l, hrun, _, hstrict⟩ :=
      ih (some { type := a.type.push c, subtype := a.subtype, parameters := a.parameters, q := a.q }) pname acc ⟨_, rfl, hq⟩
    have hlt := hstrict (fun hst => absurd hst (by decide))
    exact ⟨l, hrun, le_of_lt hlt, fun _ => hlt⟩
  | csSemi h1 _ ih =>
    intro cur pname acc hst
    obtain ⟨a, rfl, hq⟩ := hst
    simp only [parseAcceptsRun, h1, (by decide : (SEMICOLON == SEMICOLON) = true),
      if_true]
    obtain ⟨l, hrun, _, hstrict⟩ := ih _ pname acc ⟨⟨_, _, a.parameters, _⟩, rfl, hq⟩
    have hlt := hstrict (fun hst => absurd hst (by decide))
    exact ⟨l, hrun, le_of_lt hlt, fun _ => hlt⟩
  | csComma h1 _ ih =>
    intro cur pname acc hst
    obtain ⟨a, rfl, hq⟩ := hst
    simp only [parseAcceptsRun, h1, (by decide : (COMMA == COMMA) = true),
      (by decide : (COMMA == SEMICOLON) = false), Bool.false_eq_true, if_false,
      if_true, commitCur_qSafe hq]
    obtain ⟨l, hrun, hle, _⟩ := ih none pname (acc ++ [a]) trivial
    simp only [List.length_append, List.length_singleton] at hle
    exact ⟨l, hrun, by omega, fun _ => by omega⟩
  | ecsEnd =>
    intro cur pname acc hst
    obtain ⟨a, rfl, hq⟩ := hst
    refine ⟨acc ++ [a], ?_, by simp, fun _ => by simp⟩
    simp only [parseAcceptsRun, commitCur_qSafe hq]
    rfl
  | ecsWs hw _ ih =>
    intro cur pname acc hst
    obtain ⟨a, rfl, hq⟩ := hst
    simp only [parseAcceptsRun, hw, if_true]
    obtain ⟨l, hrun, _, hstrict⟩ := ih _ pname acc ⟨⟨_, _, a.parameters, _⟩, rfl, hq⟩
    have hlt := hstrict (fun hst => absurd hst (by decide))
    exact ⟨l, hrun, le_of_lt hlt, fun _ => hlt⟩
  | ecsSemi h1 _ ih =>
    intro cur pname acc hst
    obtain ⟨a, rfl, hq⟩ := hst
    simp only [parseAcceptsRun, h1, (by decide : isWhitespace SEMICOLON = false),
      (by decide : (SEMICOLON == SEMICOLON) = true), Bool.false_eq_true, if_false,
      if_true]
    obtain ⟨l, hrun, _, hstrict⟩ := ih _ pname acc ⟨⟨_, _, a.parameters, _⟩, rfl, hq⟩
    have hlt := hstrict (fun hst => absurd hst (by decide))
    exact ⟨l, hrun, le_of_lt hlt, fun _ => hlt⟩
  | ecsComma h1 _ ih =>
    intro cur pname acc hst
    obtain ⟨a, rfl, hq⟩ := hst
    simp only [parseAcceptsRun, h1, (by decide : isWhitespace COMMA = false),
      (by decide : (COMMA == SEMICOLON) = false), (by decide : (COMMA == COMMA) = true),
      Bool.false_eq_true, if_false, if_true, commitCur_qSafe hq]
    obtain ⟨l, hrun, hle, _⟩ := ih none pname (acc ++ [a]) trivial
    simp only [List.length_append, List.length_singleton] at hle
    exact ⟨l, hrun, by omega, fun _ => by omega⟩
  | epnEnd =>
    intro cur pname acc hst
    obtain ⟨a, rfl, hq⟩ := hst
    refine ⟨acc ++ [a], ?_, by simp, fun _ => by simp⟩
    simp only [parseAcceptsRun, commitCur_qSafe hq]
    rfl
  | epnOws h1 _ ih =>
    intro cur pname acc hst
    obtain ⟨a, rfl, hq⟩ := hst
    simp only [parseAcceptsRun, h1, if_true]
    obtain ⟨l, hrun, _, hstrict⟩ := ih _ pname acc ⟨⟨_, _, a.parameters, _⟩, rfl, hq⟩
    have hlt := hstrict (fun hst => absurd hst (by decide))
    exact ⟨l, hrun, le_of_lt hlt, fun _ => hlt⟩
  | epnTok h1 _ ih =>
    intro cur pname acc hst
    obtain ⟨a, rfl, hq⟩ := hst
    obtain ⟨_, hows, _, _, _, _, _⟩ := isToken_facts h1
    simp only [parseAcceptsRun, hows, h1, Bool.false_eq_true, if_false, if_true]
    obtain ⟨l, hrun, _, hstrict⟩ :=
      ih _ _ acc ⟨⟨⟨_, _, a.parameters, _⟩, rfl, hq⟩, singleton_ne_empty _⟩
    have hlt := hstrict (fun hst => absurd hst (by decide))
    exact ⟨l, hrun, le_of_lt hlt, fun _ => hlt⟩
  | cpnEnd =>
    intro cur pname acc hst
    obtain ⟨⟨a, rfl, hq⟩, _⟩ := hst
    refine ⟨acc ++ [a], ?_, by simp, fun _ => by simp⟩
    simp only [parseAcceptsRun, commitCur_qSafe hq]
    rfl
  | cpnTok h1 _ ih =>
    intro cur pname acc hst
    obtain ⟨⟨a, rfl, hq⟩, _⟩ := hst
    simp only [parseAcceptsRun, h1, if_true]
    obtain ⟨l, hrun, _, hstrict⟩ := ih _ _ acc ⟨⟨⟨_, _, a.parameters, _⟩, rfl, hq⟩, push_ne_empty _ _⟩
    have hlt := hstrict (fun hst => absurd hst (by decide))
    exact ⟨l, hrun, le_of_lt hlt, fun _ => hlt⟩
  | cpnEq h1 _ ih =>
    intro cur pname acc hst
    obtain ⟨⟨a, rfl, hq⟩, hpn⟩ := hst
    simp only [parseAcceptsRun, h1, (by decide : isToken EQUALS = false),
      (by decide : (EQUALS == EQUALS) = true), Bool.false_eq_true, if_false,
      if_true, jsNonNull]
    obtain ⟨l, hrun, _, hstrict⟩ :=
      ih _ _ acc ⟨⟨⟨_, _, setParam a.parameters pname (some ""), _⟩, rfl, qSafeP_setParam_empty hq pname⟩, hpn⟩
    have hlt := hstrict (fun hst => absurd hst (by decide))
    exact ⟨l, hrun, le_of_lt hlt, fun _ => hlt⟩
  | epvEnd =>
    intro cur pname acc hst
    obtain ⟨⟨a, rfl, hq⟩, _⟩ := hst
    refine ⟨acc ++ [a], ?_, by simp, fun _ => by simp⟩
    simp only [parseAcceptsRun, commitCur_qSafe hq]
    rfl
  | epvTok h1 _ ih =>
    intro cur pname acc hst
    obtain ⟨⟨a, rfl, hq⟩, hpn⟩ := hst
    obtain ⟨_, _, _, _, _, hdq, _⟩ := isToken_facts h1
    simp only [parseAcceptsRun, hdq, h1, Bool.false_eq_true, if_false, if_true]
    obtain ⟨l, hrun, _, hstrict⟩ := ih _ _ acc ⟨⟨⟨_, _, a.parameters, _⟩, rfl, hq⟩, push_ne_q hpn _⟩
    have hlt := hstrict (fun hst => absurd hst (by decide))
    exact ⟨l, hrun, le_of_lt hlt, fun _ => hlt⟩
  | epvEq h1 _ ih =>
    intro cur pname acc hst
    obtain ⟨⟨a, rfl, hq⟩, hpn⟩ := hst
    simp only [parseAcceptsRun, h1, (by decide : (EQUALS == DOUBLE_QUOTE) = false),
      (by decide : isToken EQUALS = false), (by decide : (EQUALS == EQUALS) = true),
      Bool.false_eq_true, if_false, if_true]
    obtain ⟨l, hrun, _, hstrict⟩ := ih _ pname acc ⟨⟨⟨_, _, a.parameters, _⟩, rfl, hq⟩, hpn⟩
    have hlt := hstrict (fun hst => absurd hst (by decide))
    exact ⟨l, hrun, le_of_lt hlt, fun _ => hlt⟩
  | cpvEnd =>
    intro cur pname acc hst
    obtain ⟨⟨a, rfl, hq⟩, _⟩ := hst
    refine ⟨acc ++ [a], ?_, by simp, fun _ => by simp⟩
    simp only [parseAcceptsRun, commitCur_qSafe hq]
    rfl
  | cpvTok h1 _ ih =>
    intro cur pname acc hst
    obtain ⟨⟨a, rfl, hq⟩, hpn⟩ := hst
    obtain ⟨_, _, hsemi, hcomma, _, _, _⟩ := isToken_facts h1
    simp only [parseAcceptsRun, hsemi, hcomma, h1, jsNonNull, Bool.false_eq_true,
      if_false, if_true]
    obtain ⟨l, hrun, _, hstrict⟩ :=
      ih _ _ acc ⟨⟨⟨_, _, appendParam a.parameters pname _, _⟩, rfl, qSafeP_appendParam hq hpn _⟩, hpn⟩
    have hlt := hstrict (fun hst => absurd hst (by decide))
    exact ⟨l, hrun, le_of_lt hlt, fun _ => hlt⟩
  | cpvSemi h1 _ ih =>
    intro cur pname acc hst
    obtain ⟨⟨a, rfl, hq⟩, _⟩ := hst
    simp only [parseAcceptsRun, h1, (by decide : (SEMICOLON == SEMICOLON) = true),
      if_true]
    obtain ⟨l, hrun, _, hstrict⟩ := ih _ pname acc ⟨⟨_, _, a.parameters, _⟩, rfl, hq⟩
    have hlt := hstrict (fun hst => absurd hst (by decide))
    exact ⟨l, hrun, le_of_lt hlt, fun _ => hlt⟩
  | cpvComma h1 _ ih =>
    intro cur pname acc hst
    obtain ⟨⟨a, rfl, hq⟩, _⟩ := hst
    simp only [parseAcceptsRun, h1, (by decide : (COMMA == SEMICOLON) = false),
      (by decide : (COMMA == COMMA) = true), Bool.false_eq_true, if_false, if_true,
      commitCur_qSafe hq]
    obtain ⟨l, hrun, hle, _⟩ := ih none pname (acc ++ [a]) trivial
    simp only [List.length_append, List.length_singleton] at hle
    exact ⟨l, hrun, by omega, fun _ => by omega⟩

/-- C8: for every non-empty input composed of token characters (`isToken`,
which includes `*` and `/`), the bytes `/`, `;`, `=`, `,` and whitespace,
arranged in an order the state machine's grammar permits (formalized by
`Lang` from the initial state, covering the structural dispatch of `*` and
`/` and every end-of-input commit), `parseAccepts` terminates without
error and — provided some byte is not whitespace, since a whitespace-only
header is grammar-compliant but commits nothing (see C10) — returns at
least one media range. -/
theorem C8_grammar_totality (h : String) (hg : Lang State.EXPECT_TYPE h.toList)
    (hnw : ∃ c ∈ h.toList, isWhitespace c.toNat = false) :
    (parseAccepts h).toOption.isSome = true ∧
    1 ≤ ((parseAccepts h).toOption.getD []).length := by
  obtain ⟨l, hrun, _, hstrict⟩ := run_lang hg none "" [] trivial
  have hlen := hstrict (fun _ => hnw)
  have hp : parseAccepts h = Except.ok (sortAccepts l) := by
    unfold parseAccepts
    rw [hrun]
  rw [hp]
  refine ⟨rfl, ?_⟩
  simp only [Except.toOption, Option.getD]
  have hperm := (sortAccepts_perm l).length_eq
  simp only [List.length_nil] at hlen
  omega

/-- C8 witness: the theorem applied to the header `a*b/c`, whose type
contains the token byte `*`, with its explicit grammar derivation. -/
theorem C8_grammar_totality_witness :
    (parseAccepts "a*b/c").toOption.isSome = true ∧
    1 ≤ ((parseAccepts "a*b/c").toOption.getD []).length :=
  C8_grammar_totality "a*b/c"
    (Lang.etTok (by decide) (by decide)
      (Lang.ctTok (by decide) (by decide)
        (Lang.ctTok (by decide) (by decide)
          (Lang.ctSlash (by decide)
            (Lang.esTok (by decide) Lang.csEnd)))))
    ⟨'a', by decide, by decide⟩

end Grafserv
